import Mathlib

/-!
Verification of the chat proxy endpoint (`src/app/api/chat/route.ts`).

The development shallowly embeds the route handler: JS strings are Lean
`String`s (lists of characters; JS UTF-16 code units are modelled as
characters), `undefined`-able values are `Option`s, the environment is an
explicit record of the environment variables the handler reads, and the
streaming response channel is a record of the frames enqueued so far together
with a count of `close()` calls.  Floating-point fields (`temperature`) play
no role in any verified property and are omitted from the embedded request
body.
-/

namespace ChatRoute

/-- Role of a chat message (`"system" | "user" | "assistant"`). -/
inductive Role
  | system
  | user
  | assistant
deriving DecidableEq, Repr

/-- Chat message shape (`type InMessage = { role; content: string }`). -/
structure InMessage where
  role : Role
  content : String
deriving DecidableEq, Repr

/-- The four providers of `type Provider = "azure" | "openai" | "ollama" | "mock"`. -/
inductive Provider
  | azure
  | openai
  | ollama
  | mock
deriving DecidableEq, Repr

/-- Embedded request body (`interface ChatBody`); `temperature` is omitted
(floating point, unused by the verified properties).  A `messages` field that
is absent or not an array is modelled as `none`. -/
structure ChatBody where
  messages : Option (List InMessage) := none
  model : Option String := none
  provider : Option String := none
deriving DecidableEq, Repr

/-- Environment variables read by the route, `none` meaning unset. -/
structure Env where
  azureEndpoint : Option String := none
  azureDeployment : Option String := none
  azureApiVersion : Option String := none
  azureApiKey : Option String := none
  azureClientId : Option String := none
  azureManagedIdentityClientId : Option String := none
  openaiApiKey : Option String := none
deriving DecidableEq, Repr

/-- Environment with every variable unset. -/
def Env.empty : Env := {}

/-- Truthiness of a JS `string | undefined` value: `undefined` and the empty
string are falsy. -/
def truthy : Option String → Bool
  | none => false
  | some s => !(s == "")

/-- JS `a || b` on `string | undefined` values, collapsing a falsy result to
`none` (as `x || undefined` does). -/
def jsOr (a b : Option String) : Option String :=
  match a with
  | some s => if s == "" then b else some s
  | none => b

/-- ASCII lowering of one character, the model of JS `toLowerCase` on the
provider names the route compares against. -/
def jsToLower (s : String) : String := ⟨s.data.map Char.toLower⟩

/-- Drop leading whitespace characters. -/
def wsDropL (l : List Char) : List Char := l.dropWhile Char.isWhitespace

/-- Drop trailing whitespace characters. -/
def wsDropR (l : List Char) : List Char := (l.reverse.dropWhile Char.isWhitespace).reverse

/-- Model of JS `String.prototype.trim`: strip whitespace from both ends. -/
def jsTrim (s : String) : String := ⟨wsDropR (wsDropL s.data)⟩

/-- `sanitizeMessages` from the source: keep the messages whose trimmed
content is truthy (non-empty) and trim the survivors. -/
def sanitizeMessages (list : List InMessage) : List InMessage :=
  (list.filter (fun m => !(jsTrim m.content == ""))).map
    (fun m => ⟨m.role, jsTrim m.content⟩)

theorem dropWhile_dropWhile_self (p : Char → Bool) (l : List Char) :
    (l.dropWhile p).dropWhile p = l.dropWhile p := by
  induction l with
  | nil => rfl
  | cons h t ih =>
    by_cases hp : p h
    · rw [List.dropWhile_cons_of_pos hp]; exact ih
    · rw [List.dropWhile_cons_of_neg hp, List.dropWhile_cons_of_neg hp]

theorem dropWhile_eq_self_of_isPrefix (p : Char → Bool) {t l : List Char}
    (hpre : t <+: l) (hl : l.dropWhile p = l) : t.dropWhile p = t := by
  cases t with
  | nil => rfl
  | cons c t' =>
    obtain ⟨r, hr⟩ := hpre
    have hc : ¬ p c := by
      intro hc
      have h1 : l.dropWhile p = (t' ++ r).dropWhile p := by
        rw [← hr, List.cons_append, List.dropWhile_cons_of_pos hc]
      have h2 : (l.dropWhile p).length ≤ (t' ++ r).length := by
        rw [h1]; exact (List.dropWhile_suffix p).sublist.length_le
      rw [hl] at h2
      have h4 : l.length = t'.length + r.length + 1 := by
        rw [← hr]; simp [List.length_append]
      rw [h4, List.length_append] at h2
      omega
    rw [List.dropWhile_cons_of_neg hc]

theorem wsDropR_isPrefix (l : List Char) : wsDropR l <+: l := by
  have h := List.dropWhile_suffix (l := l.reverse) Char.isWhitespace
  have h2 : (l.reverse.dropWhile Char.isWhitespace).reverse <+: l.reverse.reverse := by
    exact List.reverse_prefix.mpr h
  rw [List.reverse_reverse] at h2
  exact h2

theorem wsDropL_wsDropR (l : List Char) (h : wsDropL l = l) :
    wsDropL (wsDropR l) = wsDropR l :=
  dropWhile_eq_self_of_isPrefix Char.isWhitespace (wsDropR_isPrefix l) h

theorem wsDropR_wsDropR (l : List Char) : wsDropR (wsDropR l) = wsDropR l := by
  unfold wsDropR
  rw [List.reverse_reverse, dropWhile_dropWhile_self]

/-- Trimming is idempotent. -/
theorem jsTrim_idem (s : String) : jsTrim (jsTrim s) = jsTrim s := by
  apply String.ext
  show wsDropR (wsDropL (wsDropR (wsDropL s.data))) = wsDropR (wsDropL s.data)
  rw [wsDropL_wsDropR (wsDropL s.data) (dropWhile_dropWhile_self _ _), wsDropR_wsDropR]

theorem sanitizeMessages_cons (m : InMessage) (t : List InMessage) :
    sanitizeMessages (m :: t) =
      if jsTrim m.content = "" then sanitizeMessages t
      else ⟨m.role, jsTrim m.content⟩ :: sanitizeMessages t := by
  unfold sanitizeMessages
  by_cases h : jsTrim m.content = ""
  · simp [h, List.filter_cons]
  · simp [h, List.filter_cons]

theorem sanitizeMessages_fixed {l : List InMessage}
    (h : ∀ m ∈ l, m.content ≠ "" ∧ jsTrim m.content = m.content) :
    sanitizeMessages l = l := by
  induction l with
  | nil => rfl
  | cons m t ih =>
    obtain ⟨hne, htrim⟩ := h m (List.mem_cons_self m t)
    have ht : ∀ x ∈ t, x.content ≠ "" ∧ jsTrim x.content = x.content :=
      fun x hx => h x (List.mem_cons_of_mem m hx)
    rw [sanitizeMessages_cons, if_neg (by rw [htrim]; exact hne), htrim, ih ht]

theorem sanitizeMessages_mem {l : List InMessage} {m : InMessage}
    (h : m ∈ sanitizeMessages l) : m.content ≠ "" ∧ jsTrim m.content = m.content := by
  unfold sanitizeMessages at h
  obtain ⟨x, hx, hmx⟩ := List.mem_map.mp h
  obtain ⟨hxl, hcond⟩ := List.mem_filter.mp hx
  have hne : jsTrim x.content ≠ "" := by
    intro hc
    rw [hc] at hcond
    simp at hcond
  constructor
  · rw [← hmx]; exact hne
  · rw [← hmx]
    show jsTrim (jsTrim x.content) = jsTrim x.content
    exact jsTrim_idem x.content

/-- C9: message sanitization is idempotent — sanitizing an already-sanitized
list yields the same list; sanitization filters out every message whose
trimmed content is empty and trims the content of the survivors. -/
theorem sanitizeMessages_idempotent (l : List InMessage) :
    sanitizeMessages (sanitizeMessages l) = sanitizeMessages l :=
  sanitizeMessages_fixed (fun _ hm => sanitizeMessages_mem hm)

/-- The output channel of the SSE `ReadableStream`: the frames enqueued so
far, in order, and how many times `controller.close()` has run. -/
structure Channel where
  frames : List String
  closes : Nat
deriving DecidableEq, Repr

/-- One SSE event frame for a token, as built by `emit` in `sseStream`. -/
def sseFrame (t : String) : String := "data: " ++ t ++ "\n\n"

/-- Effect of one `emit(t)` call on the channel. -/
def emitOn (c : Channel) (t : String) : Channel :=
  { c with frames := c.frames ++ [sseFrame t] }

/-- Shallow embedding of `sseStream`.  A producer is characterised by the
tokens it passes to `emit`, in order, and by whether it then returns normally
(`err = none`) or throws an error with the given message (`err = some m`).
The try block emits the tokens; on normal completion `[DONE]` is emitted, on a
throw `[ERROR] ` plus the message; the finally block closes the controller. -/
def sseStream (tokens : List String) (err : Option String) : Channel :=
  let afterTry := tokens.foldl emitOn ⟨[], 0⟩
  let afterEnd :=
    match err with
    | none => emitOn afterTry "[DONE]"
    | some m => emitOn afterTry ("[ERROR] " ++ m)
  { afterEnd with closes := afterEnd.closes + 1 }

theorem foldl_emitOn (ts : List String) (c : Channel) :
    ts.foldl emitOn c = ⟨c.frames ++ ts.map sseFrame, c.closes⟩ := by
  induction ts generalizing c with
  | nil => simp
  | cons t ts ih =>
    rw [List.foldl_cons, ih, List.map_cons]
    simp [emitOn, List.append_assoc]

theorem sseStream_none (ts : List String) :
    sseStream ts none = ⟨ts.map sseFrame ++ [sseFrame "[DONE]"], 1⟩ := by
  unfold sseStream
  rw [foldl_emitOn]
  simp [emitOn]

theorem sseStream_some (ts : List String) (m : String) :
    sseStream ts (some m) = ⟨ts.map sseFrame ++ [sseFrame ("[ERROR] " ++ m)], 1⟩ := by
  unfold sseStream
  rw [foldl_emitOn]
  simp [emitOn]

/-- C1: the SSE framer turns a producer that emits tokens `ts` and then throws
with message `m` into exactly the frames `data: t\n\n` for each token followed
by one `data: [ERROR] m\n\n` frame, closing the channel exactly once, with
nothing — in particular no `[DONE]` frame — after the `[ERROR]` frame; and it
turns a producer that emits `ts` and completes normally into the token frames
followed by exactly one `data: [DONE]\n\n` frame, again closing exactly once. -/
theorem sseStream_framing (ts : List String) (m : String) :
    sseStream ts (some m) = ⟨ts.map sseFrame ++ [sseFrame ("[ERROR] " ++ m)], 1⟩ ∧
    (sseStream ts (some m)).frames.getLast? = some (sseFrame ("[ERROR] " ++ m)) ∧
    sseStream ts none = ⟨ts.map sseFrame ++ [sseFrame "[DONE]"], 1⟩ := by
  refine ⟨sseStream_some ts m, ?_, sseStream_none ts⟩
  rw [sseStream_some ts m]
  simp

/-- Last user message content with the `|| "Hello"` fallback, from
`handleMock`. -/
def lastUserContent (messages : List InMessage) : String :=
  match messages.reverse.find? (fun m => m.role = Role.user) with
  | some m => if m.content = "" then "Hello" else m.content
  | none => "Hello"

/-- The canned mock reply: a fixed prefix plus the first 240 characters of the
last user message. -/
def mockBaseReply (messages : List InMessage) : String :=
  "Mock reply (no live model). You said: " ++ ⟨(lastUserContent messages).data.take 240⟩

/-- The token sequence the mock producer emits: the reply one character at a
time (the inter-character delay has no effect on the emitted data). -/
def mockTokens (messages : List InMessage) : List String :=
  (mockBaseReply messages).data.map (fun c => ⟨[c]⟩)

/-- `handleMock`: frame the character-by-character reply through `sseStream`;
the producer never throws. -/
def handleMock (messages : List InMessage) : Channel :=
  sseStream (mockTokens messages) none

theorem join_map_singleton (cs : List Char) (acc : String) :
    (cs.map (fun c => (⟨[c]⟩ : String))).foldl (fun r s => r ++ s) acc = acc ++ ⟨cs⟩ := by
  induction cs generalizing acc with
  | nil =>
    apply String.ext
    simp
  | cons c cs ih =>
    rw [List.map_cons, List.foldl_cons, ih]
    apply String.ext
    show (acc ++ ⟨[c]⟩).data ++ cs = acc.data ++ (c :: cs)
    show (acc.data ++ [c]) ++ cs = acc.data ++ (c :: cs)
    simp

theorem string_join_singletons (cs : List Char) :
    String.join (cs.map (fun c => (⟨[c]⟩ : String))) = ⟨cs⟩ := by
  show (cs.map (fun c => (⟨[c]⟩ : String))).foldl (fun r s => r ++ s) "" = ⟨cs⟩
  rw [join_map_singleton]
  apply String.ext
  rfl

/-- C8: for a sanitized message list whose last user message is `u` (so
`u.content` is non-empty), the mock handler emits the fixed reply one
character per token, the concatenation of the tokens is the canned reply
referencing `u.content` (truncated to 240 characters), and the framed output
is exactly those token frames followed by a single `[DONE]` frame with the
channel closed exactly once.  The model is a pure function of the messages:
deterministic, no network. -/
theorem handleMock_stream_spec (messages : List InMessage) (u : InMessage)
    (hfind : messages.reverse.find? (fun m => m.role = Role.user) = some u)
    (hne : u.content ≠ "") :
    handleMock messages =
      ⟨(mockTokens messages).map sseFrame ++ [sseFrame "[DONE]"], 1⟩ ∧
    String.join (mockTokens messages) =
      "Mock reply (no live model). You said: " ++ ⟨u.content.data.take 240⟩ ∧
    ∀ t ∈ mockTokens messages, t.data.length = 1 := by
  refine ⟨sseStream_none _, ?_, ?_⟩
  · have hlast : lastUserContent messages = u.content := by
      unfold lastUserContent
      rw [hfind]
      show (if u.content = "" then "Hello" else u.content) = u.content
      rw [if_neg hne]
    unfold mockTokens
    rw [string_join_singletons]
    unfold mockBaseReply
    rw [hlast]
  · intro t ht
    unfold mockTokens at ht
    obtain ⟨c, _, hct⟩ := List.mem_map.mp ht
    rw [← hct]
    rfl

/-- Closed witness for C8 at the concrete history `[user "hello"]`. -/
theorem handleMock_stream_spec_witness :
    handleMock [⟨Role.user, "hello"⟩] =
      ⟨(mockTokens [⟨Role.user, "hello"⟩]).map sseFrame ++ [sseFrame "[DONE]"], 1⟩ :=
  (handleMock_stream_spec [⟨Role.user, "hello"⟩] ⟨Role.user, "hello"⟩ rfl
    (by decide)).1

/-- `hasAzureConfig`: endpoint, deployment and api version truthy, plus one of
the api key or the two managed-identity client-id variables. -/
def hasAzureConfig (e : Env) : Bool :=
  truthy e.azureEndpoint && truthy e.azureDeployment && truthy e.azureApiVersion &&
    truthy (jsOr e.azureApiKey (jsOr e.azureClientId e.azureManagedIdentityClientId))

/-- `hasOpenAIConfig`: `!!process.env.OPENAI_API_KEY`. -/
def hasOpenAIConfig (e : Env) : Bool := truthy e.openaiApiKey

/-- Recognized provider name strings. -/
def providerNames : List String := ["azure", "openai", "ollama", "mock"]

/-- Mapping from a recognized name to its provider (the `as Provider` cast). -/
def providerOf (s : String) : Provider :=
  if s = "azure" then .azure
  else if s = "openai" then .openai
  else if s = "ollama" then .ollama
  else .mock

/-- Environment-based fallback chain of `detectProvider` (its last three
lines). -/
def autoDetectProvider (e : Env) : Provider :=
  if hasAzureConfig e then .azure
  else if hasOpenAIConfig e then .openai
  else .mock

/-- `detectProvider`: the explicit request is lower-cased and trimmed; a
truthy, recognized result is returned verbatim, anything else falls through to
environment detection. -/
def detectProvider (e : Env) (explicit : Option String) : Provider :=
  match explicit with
  | none => autoDetectProvider e
  | some s =>
    let req := jsTrim (jsToLower s)
    if req ≠ "" ∧ req ∈ providerNames then providerOf req
    else autoDetectProvider e

/-- Modelled from the words of the claim for comparison: the explicit provider
is honoured exactly when it is one of the recognized names compared
case-insensitively (no whitespace trimming); otherwise the environment chain
applies. -/
def claimDetectProvider (e : Env) (explicit : Option String) : Provider :=
  match explicit with
  | none => autoDetectProvider e
  | some s =>
    if jsToLower s ∈ providerNames then providerOf (jsToLower s)
    else autoDetectProvider e

/-- Case split of the amended claim on the processed explicit string. -/
def amendedExplicit (e : Env) (r : String) : Provider :=
  if r = "azure" then .azure
  else if r = "openai" then .openai
  else if r = "ollama" then .ollama
  else if r = "mock" then .mock
  else autoDetectProvider e

/-- Amended claim as a definition: the explicit provider is honoured exactly
when its lower-cased, whitespace-trimmed form is one of the recognized names;
otherwise azure when the Azure configuration is complete, otherwise openai
when an OpenAI key is present, otherwise mock. -/
def amendedDetectProvider (e : Env) (explicit : Option String) : Provider :=
  match explicit with
  | none => autoDetectProvider e
  | some s => amendedExplicit e (jsTrim (jsToLower s))

/-- C2 counterexample: with every environment variable unset, the explicit
request `" azure"` is not one of the provider names even case-insensitively,
so the claim prescribes the fallback `mock`; the code trims the string and
returns `azure`. -/
theorem detectProvider_claim_counterexample :
    detectProvider Env.empty (some " azure") = Provider.azure ∧
    claimDetectProvider Env.empty (some " azure") = Provider.mock := by
  constructor <;> decide

theorem autoDetectProvider_ne_ollama (e : Env) :
    autoDetectProvider e ≠ Provider.ollama := by
  unfold autoDetectProvider
  by_cases h1 : hasAzureConfig e
  · simp [h1]
  · by_cases h2 : hasOpenAIConfig e <;> simp [h1, h2]

/-- C2 (amended): `detectProvider` honours an explicit provider exactly when
its lower-cased, whitespace-trimmed form is a recognized name, and otherwise
selects azure when the Azure configuration is complete, else openai when an
OpenAI key is present, else mock; without an explicit request it never
returns ollama. -/
theorem detectProvider_amended (e : Env) (x : Option String) :
    detectProvider e x = amendedDetectProvider e x ∧
    detectProvider e none ≠ Provider.ollama := by
  constructor
  · cases x with
    | none => rfl
    | some s =>
      show (if jsTrim (jsToLower s) ≠ "" ∧ jsTrim (jsToLower s) ∈ providerNames
              then providerOf (jsTrim (jsToLower s)) else autoDetectProvider e) =
           amendedExplicit e (jsTrim (jsToLower s))
      by_cases hm : jsTrim (jsToLower s) ∈ providerNames
      · have hne : jsTrim (jsToLower s) ≠ "" := by
          intro hc
          rw [hc] at hm
          simp [providerNames] at hm
        rw [if_pos ⟨hne, hm⟩]
        simp only [providerNames, List.mem_cons, List.mem_singleton,
          List.not_mem_nil, or_false] at hm
        unfold amendedExplicit providerOf
        rcases hm with h | h | h | h <;> simp [h]
      · have h1 : jsTrim (jsToLower s) ≠ "azure" := fun h => hm (by simp [providerNames, h])
        have h2 : jsTrim (jsToLower s) ≠ "openai" := fun h => hm (by simp [providerNames, h])
        have h3 : jsTrim (jsToLower s) ≠ "ollama" := fun h => hm (by simp [providerNames, h])
        have h4 : jsTrim (jsToLower s) ≠ "mock" := fun h => hm (by simp [providerNames, h])
        rw [if_neg (fun hand => hm hand.2)]
        unfold amendedExplicit
        rw [if_neg h1, if_neg h2, if_neg h3, if_neg h4]
  · exact autoDetectProvider_ne_ollama e

/-- Closed witness for C2 applying the amended theorem at a concrete input. -/
theorem detectProvider_amended_witness :
    detectProvider Env.empty (some "OLLAMA") = amendedDetectProvider Env.empty (some "OLLAMA") :=
  (detectProvider_amended Env.empty (some "OLLAMA")).1

/-- Outcome of the embedded `POST` handler, up to adapter invocation: either a
JSON error response `{ ok: false, error: msg }` with the given status, or the
dispatch of the detected provider adapter on the sanitized messages. -/
inductive PostOutcome
  | errResp (msg : String) (status : Nat)
  | dispatch (p : Provider) (messages : List InMessage)
deriving DecidableEq, Repr

/-- Embedded `POST`: the request is `none` when `req.json()` throws (malformed
JSON); validation and sanitization mirror the source, then the detected
provider adapter is invoked.  The switch in the source has a `default` branch
returning a 400 `Unknown provider` error, but `detectProvider` is total on the
four providers, so that branch is unreachable and does not appear here. -/
def POSTvalidated (e : Env) (body : ChatBody) (msgs : List InMessage) : PostOutcome :=
  if msgs.length = 0 then .errResp "messages required" 400
  else if msgs.length > 64 then .errResp "too many messages (max 64)" 400
  else if (sanitizeMessages msgs).length = 0 then .errResp "no non-empty messages" 400
  else .dispatch (detectProvider e body.provider) (sanitizeMessages msgs)

def POST (e : Env) (req : Option ChatBody) : PostOutcome :=
  match req with
  | none => .errResp "Invalid JSON" 400
  | some body =>
    match body.messages with
    | none => .errResp "messages required" 400
    | some msgs => POSTvalidated e body msgs

theorem POST_messages (e : Env) (body : ChatBody) :
    POST e (some body) =
      match body.messages with
      | none => PostOutcome.errResp "messages required" 400
      | some msgs => POSTvalidated e body msgs := rfl

/-- C3 counterexample: a request with the unrecognized provider name
`"bogus"`, one non-empty user message and an empty environment is not answered
with a 400 error — provider detection falls back to `mock` and the mock
adapter is invoked. -/
theorem unknown_provider_dispatches_mock :
    POST Env.empty (some ⟨some [⟨Role.user, "hi"⟩], none, some "bogus"⟩) =
      PostOutcome.dispatch Provider.mock [⟨Role.user, "hi"⟩] := by
  decide

/-- C3 (amended): a request whose `provider` field does not trim and lower to
a recognized name never produces an unknown-provider error; when the message
validation passes, detection falls back to the environment chain and that
adapter is invoked on the sanitized messages. -/
theorem unknown_provider_fallback (e : Env) (body : ChatBody) (msgs : List InMessage) (p : String)
    (hm : body.messages = some msgs) (hp : body.provider = some p)
    (hnr : jsTrim (jsToLower p) ∉ providerNames)
    (hne : msgs.length ≠ 0) (hlen : ¬ msgs.length > 64)
    (hsan : (sanitizeMessages msgs).length ≠ 0) :
    POST e (some body) = PostOutcome.dispatch (autoDetectProvider e) (sanitizeMessages msgs) := by
  rw [POST_messages, hm]
  show POSTvalidated e body msgs = _
  unfold POSTvalidated
  rw [if_neg hne, if_neg hlen, if_neg hsan]
  have hd : detectProvider e body.provider = autoDetectProvider e := by
    rw [hp]
    show (if jsTrim (jsToLower p) ≠ "" ∧ jsTrim (jsToLower p) ∈ providerNames
            then providerOf (jsTrim (jsToLower p)) else autoDetectProvider e) =
         autoDetectProvider e
    rw [if_neg (fun hand => hnr hand.2)]
  rw [hd]

/-- Closed witness for C3 at a concrete unrecognized provider string. -/
theorem unknown_provider_fallback_witness :
    POST Env.empty (some ⟨some [⟨Role.user, "hi"⟩], none, some "nope"⟩) =
      PostOutcome.dispatch (autoDetectProvider Env.empty)
        (sanitizeMessages [⟨Role.user, "hi"⟩]) :=
  unknown_provider_fallback Env.empty ⟨some [⟨Role.user, "hi"⟩], none, some "nope"⟩
    [⟨Role.user, "hi"⟩] "nope" rfl rfl (by decide) (by decide) (by decide) (by decide)

/-- C6: the four input-validation failures of `POST` — `messages` absent or
not an array, an empty list, more than 64 entries, and a list whose entries
are all empty after trimming — each produce a 400 JSON error (never a
dispatch), and in the over-64 case the error message spells out the limit. -/
theorem post_validation_400 (e : Env) (body : ChatBody) :
    (body.messages = none → POST e (some body) = .errResp "messages required" 400) ∧
    (body.messages = some [] → POST e (some body) = .errResp "messages required" 400) ∧
    (∀ msgs, body.messages = some msgs → msgs.length > 64 →
      POST e (some body) = .errResp ("too many messages (max " ++ toString 64 ++ ")") 400) ∧
    (∀ msgs, body.messages = some msgs → msgs.length ≠ 0 → ¬ msgs.length > 64 →
      sanitizeMessages msgs = [] →
      POST e (some body) = .errResp "no non-empty messages" 400) := by
  refine ⟨?_, ?_, ?_, ?_⟩
  · intro h
    rw [POST_messages, h]
  · intro h
    rw [POST_messages, h]
    rfl
  · intro msgs h hlen
    rw [POST_messages, h]
    show POSTvalidated e body msgs = _
    unfold POSTvalidated
    rw [if_neg (by omega), if_pos hlen]
    rfl
  · intro msgs h hne hlen hsan
    rw [POST_messages, h]
    show POSTvalidated e body msgs = _
    unfold POSTvalidated
    rw [if_neg hne, if_neg hlen, if_pos (by rw [hsan]; rfl)]

/-- Closed witness for C6 at a concrete oversized request. -/
theorem post_validation_400_witness :
    POST Env.empty (some ⟨some (List.replicate 65 ⟨Role.user, "x"⟩), none, none⟩) =
      PostOutcome.errResp ("too many messages (max " ++ toString 64 ++ ")") 400 :=
  (post_validation_400 Env.empty
      ⟨some (List.replicate 65 ⟨Role.user, "x"⟩), none, none⟩).2.2.1
    (List.replicate 65 ⟨Role.user, "x"⟩) rfl (by decide)

/-- Outcome of `handleAzure` up to stream creation: either the JSON error
response `{ ok: false, error: msg }` with the given status, or the opening of
the SSE stream (recording which credential path was taken).  Client
construction and the upstream call are external SDK effects past the guards
and are not distinguished further. -/
inductive AzureOutcome
  | errResp (msg : String) (status : Nat)
  | streamResp (useManagedIdentity : Bool)
deriving DecidableEq, Repr

/-- Resolved Azure endpoint (`process.env.AZURE_OPENAI_ENDPOINT?.trim()`). -/
def azEndpoint (e : Env) : Option String := e.azureEndpoint.map jsTrim

/-- Resolved deployment: request `model` first, then the environment value. -/
def azDeployment (e : Env) (body : ChatBody) : Option String :=
  jsOr (body.model.map jsTrim) (e.azureDeployment.map jsTrim)

/-- Resolved api version. -/
def azApiVersion (e : Env) : Option String := e.azureApiVersion.map jsTrim

/-- Resolved managed-identity client id: `AZURE_OPENAI_CLIENTID` first, then
the legacy `AZURE_MANAGED_IDENTITY_CLIENT_ID`. -/
def azManagedId (e : Env) : Option String :=
  jsOr (e.azureClientId.map jsTrim) (e.azureManagedIdentityClientId.map jsTrim)

/-- Resolved API key: `AZURE_OPENAI_API_KEY`, falling back to
`OPENAI_API_KEY`. -/
def azKey (e : Env) : Option String :=
  jsOr (e.azureApiKey.map jsTrim) (e.openaiApiKey.map jsTrim)

/-- Error message of the missing-configuration guard in `handleAzure`. -/
def azureConfigMissingMsg : String :=
  "Azure config missing (need AZURE_OPENAI_ENDPOINT, AZURE_OPENAI_DEPLOYMENT, AZURE_OPENAI_API_VERSION)"

/-- Error message of the missing-credentials guard in `handleAzure`. -/
def azureAuthMissingMsg : String :=
  "Azure auth missing (set AZURE_OPENAI_CLIENTID + optional AZURE_OPENAI_SCOPE for managed identity OR provide AZURE_OPENAI_API_KEY)"

/-- `handleAzure` up to stream creation: resolve configuration, return a 500
JSON error when endpoint, deployment or api version is unresolved, or when
neither the managed-identity client id nor an API key is available; otherwise
open the stream. -/
def handleAzure (e : Env) (body : ChatBody) : AzureOutcome :=
  let useManagedIdentity := truthy (azManagedId e)
  let azureKey := if useManagedIdentity then none else azKey e
  if !truthy (azEndpoint e) || !truthy (azDeployment e body) || !truthy (azApiVersion e) then
    .errResp azureConfigMissingMsg 500
  else if !useManagedIdentity && !truthy azureKey then
    .errResp azureAuthMissingMsg 500
  else .streamResp useManagedIdentity

/-- C5: whenever the resolved endpoint, deployment or api version is missing,
or neither credential is available, `handleAzure` answers with a JSON error
body and status 500 — one of the two guard messages — and never opens an SSE
stream. -/
theorem handleAzure_config_error (e : Env) (body : ChatBody)
    (h : truthy (azEndpoint e) = false ∨ truthy (azDeployment e body) = false ∨
         truthy (azApiVersion e) = false ∨
         (truthy (azManagedId e) = false ∧ truthy (azKey e) = false)) :
    (handleAzure e body = .errResp azureConfigMissingMsg 500 ∨
     handleAzure e body = .errResp azureAuthMissingMsg 500) ∧
    ∀ b, handleAzure e body ≠ AzureOutcome.streamResp b := by
  have hmain : handleAzure e body = .errResp azureConfigMissingMsg 500 ∨
      handleAzure e body = .errResp azureAuthMissingMsg 500 := by
    unfold handleAzure
    by_cases hg : (!truthy (azEndpoint e) || !truthy (azDeployment e body) ||
        !truthy (azApiVersion e)) = true
    · left
      simp only [hg, if_true]
    · right
      have he : truthy (azEndpoint e) = true := by
        by_contra hc
        simp [Bool.not_eq_true] at hc
        simp [hc] at hg
      have hd : truthy (azDeployment e body) = true := by
        by_contra hc
        simp [Bool.not_eq_true] at hc
        simp [hc] at hg
      have hv : truthy (azApiVersion e) = true := by
        by_contra hc
        simp [Bool.not_eq_true] at hc
        simp [hc] at hg
      obtain ⟨hmi, hkey⟩ : truthy (azManagedId e) = false ∧ truthy (azKey e) = false := by
        rcases h with h | h | h | h
        · rw [h] at he; cases he
        · rw [h] at hd; cases hd
        · rw [h] at hv; cases hv
        · exact h
      simp [he, hd, hv, hmi, hkey]
  refine ⟨hmain, fun b hb => ?_⟩
  rcases hmain with hm | hm <;> rw [hm] at hb <;> cases hb

/-- Closed witness for C5: empty environment, empty body — the endpoint is
unresolved, so the Azure adapter answers with a 500 JSON error. -/
theorem handleAzure_config_error_witness :
    (handleAzure Env.empty {} = AzureOutcome.errResp azureConfigMissingMsg 500 ∨
     handleAzure Env.empty {} = AzureOutcome.errResp azureAuthMissingMsg 500) ∧
    ∀ b, handleAzure Env.empty {} ≠ AzureOutcome.streamResp b :=
  handleAzure_config_error Env.empty {} (Or.inl (by decide))

/-- Splitter state machine for `buffer.split(/\n+/)`: tokens are the maximal
runs of non-newline characters; a leading or trailing separator contributes an
empty token at that end, and consecutive newlines are one separator.  `acc`
holds the current token reversed, `inSep` records that the previous character
was a newline. -/
def splitNlAux : List Char → List Char → Bool → List (List Char)
  | [], acc, _ => [acc.reverse]
  | c :: rest, acc, inSep =>
    if c = '\n' then
      if inSep then splitNlAux rest acc true
      else acc.reverse :: splitNlAux rest [] true
    else splitNlAux rest (c :: acc) false

/-- Model of `s.split(/\n+/)`; the result is always non-empty. -/
def splitNl (s : String) : List String :=
  (splitNlAux s.data [] false).map (fun l => ⟨l⟩)

/-- The fields `handleOllama` reads from one parsed upstream JSON line:
`obj.message?.content` (absent or non-string modelled as `none`) and the
truthiness of `obj.done`. -/
structure OllamaObj where
  content : Option String
  done : Bool
deriving DecidableEq, Repr

/-- Mutable state of the `handleOllama` producer loop: the undelivered tail of
the decoded text (`buffer`), the last full cumulative string seen
(`lastFull`), the deltas emitted so far, and whether the `done: true` `return`
has run. -/
structure OllamaState where
  buffer : String
  lastFull : String
  emitted : List String
  finished : Bool
deriving DecidableEq, Repr

/-- Initial producer state: empty buffer, empty `lastFull`. -/
def initialOllamaState : OllamaState := ⟨"", "", [], false⟩

/-- Delta computation of `handleOllama`: `delta = full`, overwritten with
`full.slice(lastFull.length)` when `full.startsWith(lastFull)`. -/
def computeDelta (lastFull full : String) : String :=
  if lastFull.data.isPrefixOf full.data then ⟨full.data.drop lastFull.data.length⟩
  else full

/-- Effect of the `if (full) { ... }` block on the state: skip a falsy
(empty) content, otherwise update `lastFull` and emit the delta when it is
truthy. -/
def applyContent (st : OllamaState) (full : String) : OllamaState :=
  if full = "" then st
  else if computeDelta st.lastFull full = "" then { st with lastFull := full }
  else { st with lastFull := full, emitted := st.emitted ++ [computeDelta st.lastFull full] }

/-- Processing of one split line in `handleOllama`, parameterized by the JSON
parser (`JSON.parse` plus field access is external; `parse line = none` models
a parse failure).  After the producer has returned (`finished`), no further
line has any effect. -/
def processLine (parse : String → Option OllamaObj) (st : OllamaState) (line : String) :
    OllamaState :=
  if st.finished then st
  else if jsTrim line = "" then st
  else
    match parse line with
    | none => st
    | some obj =>
      let st1 :=
        match obj.content with
        | some full => applyContent st full
        | none => st
      if obj.done then { st1 with finished := true } else st1

/-- Processing of one decoded transport chunk: append it to the buffer, split
on newline runs, keep the last (possibly partial) piece as the new buffer and
run the line loop on the rest.  After the producer has returned, remaining
chunks are never read. -/
def processChunk (parse : String → Option OllamaObj) (st : OllamaState) (chunk : String) :
    OllamaState :=
  if st.finished then st
  else
    let parts := splitNl (st.buffer ++ chunk)
    (parts.dropLast).foldl (processLine parse)
      { st with buffer := parts.getLastD "" }

/-- The whole producer loop of `handleOllama` over the decoded transport
chunks, until `done: true` or transport end-of-stream. -/
def ollamaRun (parse : String → Option OllamaObj) (chunks : List String) : OllamaState :=
  chunks.foldl (processChunk parse) initialOllamaState

/-- Concrete parse table standing in for `JSON.parse` on three upstream lines
carrying the cumulative contents `"Hi"`, `"Hi there"`, `"Hi there!"`. -/
def exParse : String → Option OllamaObj := fun l =>
  if l = "cum1" then some ⟨some "Hi", false⟩
  else if l = "cum2" then some ⟨some "Hi there", false⟩
  else if l = "cum3" then some ⟨some "Hi there!", false⟩
  else none

theorem isPrefixOf_ne_drop_ne {pre full : String}
    (hpre : pre.data.isPrefixOf full.data = true) (hne : full ≠ pre) :
    (⟨full.data.drop pre.data.length⟩ : String) ≠ "" := by
  have hp : pre.data <+: full.data := List.isPrefixOf_iff_prefix.mp hpre
  obtain ⟨r, hr⟩ := hp
  intro hc
  have hrd : full.data.drop pre.data.length = r := by
    rw [← hr, List.drop_left]
  have hrnil : r = ([] : List Char) := by
    have := congrArg String.data hc
    rw [hrd] at this
    exact this
  apply hne
  apply String.ext
  rw [← hr, hrnil, List.append_nil]

theorem processLine_content (parse : String → Option OllamaObj) (st : OllamaState)
    (line : String) (obj : OllamaObj) (full : String)
    (hfin : st.finished = false) (htrim : jsTrim line ≠ "")
    (hparse : parse line = some obj) (hcont : obj.content = some full) :
    processLine parse st line =
      (if obj.done then { applyContent st full with finished := true }
       else applyContent st full) := by
  unfold processLine
  rw [hfin, hparse]
  simp [htrim, hcont]

theorem applyContent_eq (st : OllamaState) (full : String)
    (hne : full ≠ "") (hd : computeDelta st.lastFull full ≠ "") :
    applyContent st full =
      { st with lastFull := full, emitted := st.emitted ++ [computeDelta st.lastFull full] } := by
  unfold applyContent
  rw [if_neg hne, if_neg hd]

/-- C4: a line whose cumulative content extends the tracked string as a
prefix makes the adapter emit exactly the new suffix and track the new full
string (with `finished` following the truthiness of `done`); and on the
cumulative line sequence `"Hi"`, `"Hi there"`, `"Hi there!"` the emitted
deltas are exactly `"Hi"`, `" there"`, `"!"`. -/
theorem ollama_delta_spec :
    (∀ (parse : String → Option OllamaObj) (st : OllamaState) (line : String)
       (obj : OllamaObj) (full : String),
       st.finished = false → jsTrim line ≠ "" → parse line = some obj →
       obj.content = some full →
       st.lastFull.data.isPrefixOf full.data = true → full ≠ st.lastFull →
       processLine parse st line =
         { st with lastFull := full,
                   emitted := st.emitted ++ [⟨full.data.drop st.lastFull.data.length⟩],
                   finished := obj.done }) ∧
    (ollamaRun exParse ["cum1\ncum2\ncum3\n"]).emitted = ["Hi", " there", "!"] := by
  constructor
  · intro parse st line obj full hfin htrim hparse hcont hpre hne
    have hfullne : full ≠ "" := by
      intro hc
      apply hne
      rw [hc] at hpre ⊢
      have hp : st.lastFull.data <+: ("" : String).data :=
        List.isPrefixOf_iff_prefix.mp hpre
      have hnil : st.lastFull.data = [] := List.prefix_nil.mp hp
      exact (String.ext hnil).symm
    have hdelta : computeDelta st.lastFull full =
        (⟨full.data.drop st.lastFull.data.length⟩ : String) := by
      unfold computeDelta
      rw [hpre]
      simp
    have hdne : computeDelta st.lastFull full ≠ "" := by
      rw [hdelta]
      exact isPrefixOf_ne_drop_ne hpre hne
    rw [processLine_content parse st line obj full hfin htrim hparse hcont,
      applyContent_eq st full hfullne hdne, hdelta]
    cases hdone : obj.done
    · simp [hfin]
    · simp
  · decide

/-- Closed witness for C4: the suffix law applied at the concrete state that
has just seen `"Hi"`, on a line whose cumulative content is `"Hi there"`. -/
theorem ollama_delta_spec_witness :
    processLine exParse ⟨"", "Hi", ["Hi"], false⟩ "cum2" =
      { buffer := "", lastFull := "Hi there",
        emitted := ["Hi"] ++ [⟨"Hi there".data.drop "Hi".data.length⟩],
        finished := false } :=
  ollama_delta_spec.1 exParse ⟨"", "Hi", ["Hi"], false⟩ "cum2"
    ⟨some "Hi there", false⟩ "Hi there" rfl (by decide) rfl rfl (by decide) (by decide)

theorem splitNlAux_no_newline (l : List Char) (h : ∀ c ∈ l, c ≠ '\n') :
    ∀ acc, splitNlAux l acc false = [acc.reverse ++ l] := by
  induction l with
  | nil => intro acc; simp [splitNlAux]
  | cons c rest ih =>
    intro acc
    have hc : c ≠ '\n' := h c (List.mem_cons_self c rest)
    have hrest : ∀ x ∈ rest, x ≠ '\n' := fun x hx => h x (List.mem_cons_of_mem c hx)
    unfold splitNlAux
    rw [if_neg hc, ih hrest (c :: acc)]
    simp

theorem splitNl_no_newline (s : String) (h : ∀ c ∈ s.data, c ≠ '\n') :
    splitNl s = [s] := by
  unfold splitNl
  rw [splitNlAux_no_newline s.data h []]
  rfl

/-- C7: after a `done: true` line the producer has returned, so every further
line and every further transport chunk leaves the state unchanged (the
transport end-of-stream signal is irrelevant); a line with `done` truthy sets
`finished`; a line that does not parse as JSON is skipped with the state
unchanged, so reading continues; and a chunk that completes no line is
retained in the buffer verbatim, awaiting more data. -/
theorem ollama_done_and_parse_tolerance :
    (∀ (parse : String → Option OllamaObj) (st : OllamaState) (line : String),
       st.finished = true → processLine parse st line = st) ∧
    (∀ (parse : String → Option OllamaObj) (st : OllamaState) (chunk : String),
       st.finished = true → processChunk parse st chunk = st) ∧
    (∀ (parse : String → Option OllamaObj) (st : OllamaState) (line : String)
       (obj : OllamaObj), st.finished = false → jsTrim line ≠ "" →
       parse line = some obj → obj.done = true →
       (processLine parse st line).finished = true) ∧
    (∀ (parse : String → Option OllamaObj) (st : OllamaState) (line : String),
       parse line = none → processLine parse st line = st) ∧
    (∀ (parse : String → Option OllamaObj) (st : OllamaState) (chunk : String),
       st.finished = false → (∀ c ∈ (st.buffer ++ chunk).data, c ≠ '\n') →
       processChunk parse st chunk = { st with buffer := st.buffer ++ chunk }) := by
  refine ⟨?_, ?_, ?_, ?_, ?_⟩
  · intro parse st line hfin
    unfold processLine
    rw [hfin]
    simp
  · intro parse st chunk hfin
    unfold processChunk
    rw [hfin]
    simp
  · intro parse st line obj hfin htrim hparse hdone
    unfold processLine
    rw [hfin, hparse]
    simp [htrim, hdone]
  · intro parse st line hparse
    unfold processLine
    rw [hparse]
    simp
  · intro parse st chunk hfin hnl
    unfold processChunk
    rw [hfin]
    simp only [Bool.false_eq_true, if_false]
    rw [splitNl_no_newline (st.buffer ++ chunk) hnl]
    simp [List.dropLast, List.getLastD]

/-- Closed witness for C7: a chunk with no newline, in the initial state, is
retained whole in the buffer. -/
theorem ollama_done_and_parse_tolerance_witness :
    processChunk exParse initialOllamaState "par" =
      { initialOllamaState with buffer := "" ++ "par" } :=
  ollama_done_and_parse_tolerance.2.2.2.2 exParse initialOllamaState "par" rfl (by decide)

theorem applyContent_emitted_ne (st : OllamaState) (full : String)
    (h : ∀ t ∈ st.emitted, t ≠ "") : ∀ t ∈ (applyContent st full).emitted, t ≠ "" := by
  unfold applyContent
  by_cases h1 : full = ""
  · rw [if_pos h1]; exact h
  · rw [if_neg h1]
    by_cases h2 : computeDelta st.lastFull full = ""
    · rw [if_pos h2]; exact h
    · rw [if_neg h2]
      intro t ht
      simp only [List.mem_append, List.mem_singleton] at ht
      rcases ht with ht | ht
      · exact h t ht
      · rw [ht]; exact h2

theorem processLine_emitted_ne (parse : String → Option OllamaObj) (st : OllamaState)
    (line : String) (h : ∀ t ∈ st.emitted, t ≠ "") :
    ∀ t ∈ (processLine parse st line).emitted, t ≠ "" := by
  unfold processLine
  by_cases h1 : st.finished
  · rw [if_pos h1]; exact h
  · rw [if_neg h1]
    by_cases h2 : jsTrim line = ""
    · rw [if_pos h2]; exact h
    · rw [if_neg h2]
      cases hparse : parse line with
      | none => exact h
      | some obj =>
        obtain ⟨content, done⟩ := obj
        cases content with
        | none => cases done <;> simpa using h
        | some full =>
          cases done
          · simpa using applyContent_emitted_ne st full h
          · simpa using applyContent_emitted_ne st full h

theorem foldl_processLine_emitted_ne (parse : String → Option OllamaObj)
    (lines : List String) (st : OllamaState) (h : ∀ t ∈ st.emitted, t ≠ "") :
    ∀ t ∈ (lines.foldl (processLine parse) st).emitted, t ≠ "" := by
  induction lines generalizing st with
  | nil => exact h
  | cons l ls ih => exact ih _ (processLine_emitted_ne parse st l h)

theorem processChunk_emitted_ne (parse : String → Option OllamaObj) (st : OllamaState)
    (chunk : String) (h : ∀ t ∈ st.emitted, t ≠ "") :
    ∀ t ∈ (processChunk parse st chunk).emitted, t ≠ "" := by
  unfold processChunk
  by_cases h1 : st.finished
  · rw [if_pos h1]; exact h
  · rw [if_neg h1]
    exact foldl_processLine_emitted_ne parse _ _ h

/-- C10: a line whose non-empty cumulative content does not start with the
tracked string makes the adapter emit the entire new string as the delta (not
diffed, not dropped) and makes it the new tracked string; and across any run
of the adapter an empty delta is never emitted. -/
theorem ollama_nonprefix_delta :
    (∀ (parse : String → Option OllamaObj) (st : OllamaState) (line : String)
       (obj : OllamaObj) (full : String),
       st.finished = false → jsTrim line ≠ "" → parse line = some obj →
       obj.content = some full → full ≠ "" →
       st.lastFull.data.isPrefixOf full.data = false →
       processLine parse st line =
         { st with lastFull := full, emitted := st.emitted ++ [full],
                   finished := obj.done }) ∧
    (∀ (parse : String → Option OllamaObj) (chunks : List String),
       ∀ t ∈ (ollamaRun parse chunks).emitted, t ≠ "") := by
  constructor
  · intro parse st line obj full hfin htrim hparse hcont hfullne hpre
    have hdelta : computeDelta st.lastFull full = full := by
      unfold computeDelta
      rw [hpre]
      simp
    have hdne : computeDelta st.lastFull full ≠ "" := by rw [hdelta]; exact hfullne
    rw [processLine_content parse st line obj full hfin htrim hparse hcont,
      applyContent_eq st full hfullne hdne, hdelta]
    cases hdone : obj.done
    · simp [hfin]
    · simp
  · intro parse chunks
    unfold ollamaRun
    have : ∀ t ∈ (initialOllamaState).emitted, t ≠ "" := by
      intro t ht
      cases ht
    generalize initialOllamaState = st at this ⊢
    induction chunks generalizing st with
    | nil => exact this
    | cons c cs ih => exact ih _ (processChunk_emitted_ne parse st c this)

/-- Closed witness for C10: from a state tracking `"Hi"`, a line whose
cumulative content `"New"` does not extend it is emitted whole. -/
theorem ollama_nonprefix_delta_witness :
    processLine (fun l => if l = "n1" then some ⟨some "New", false⟩ else none)
        ⟨"", "Hi", ["Hi"], false⟩ "n1" =
      { buffer := "", lastFull := "New", emitted := ["Hi"] ++ ["New"],
        finished := false } :=
  ollama_nonprefix_delta.1 (fun l => if l = "n1" then some ⟨some "New", false⟩ else none)
    ⟨"", "Hi", ["Hi"], false⟩ "n1" ⟨some "New", false⟩ "New" rfl (by decide) rfl rfl
    (by decide) (by decide)

end ChatRoute
